import Mathlib

/-!
Shallow embedding of the download-orchestration core of `src/src/App.tsx`
(a React/Tauri GUI around an external media downloader).

The stateful React component is embedded as pure functions over explicit
state values:
  * `DownloadItem` mirrors the `DownloadItem` interface (progress as `Rat`,
    optional fields as `Option`).
  * The per-task throttle bookkeeping `progressUpdateTimesRef.current`
    (a JS object read with a `?? 0` default) is embedded as a total function
    `String → Nat`, where `0` stands for "no entry"; `delete` becomes
    "set to 0", which is lookup-equivalent.
  * Each Tauri event listener becomes a step function on the state.
  * The history-migration `useEffect` becomes `migrateHistory`.
  * The scheduler `setInterval` body becomes `schedulerTick`, returning both
    the updated task list and the ordered list of `start_download` dispatch
    calls it issues.
JavaScript quirks are kept: `Date.now() - last < 150` behaves on `Nat`
subtraction exactly as on JS numbers for this comparison (a negative JS
difference and a truncated-to-0 Nat difference are both `< 150`), `x || y`
on strings treats `""` as absent (`jsOrElse`), and `x ?? y` is `Option.getD`.
-/

namespace DlpGui

/-- Task status, mirroring the union type of `DownloadItem.status` in
`App.tsx`: `'pending' | 'downloading' | 'completed' | 'error' | 'scheduled'
| 'cancelled'`. -/
inductive Status where
  | pending
  | downloading
  | completed
  | error
  | scheduled
  | cancelled
deriving DecidableEq, Repr

/-- The statuses a `download-status` event may carry, mirroring the
`StatusPayload` interface: `'completed' | 'error' | 'cancelled'`. -/
inductive TermStatus where
  | completed
  | error
  | cancelled
deriving DecidableEq, Repr

/-- Injection of a status-event payload status into the task status union. -/
def TermStatus.toStatus : TermStatus → Status
  | .completed => .completed
  | .error => .error
  | .cancelled => .cancelled

/-- Returns `true` exactly on the three terminal statuses, the condition
`d.status === 'completed' || d.status === 'error' || d.status === 'cancelled'`
used by the history-migration effect. -/
def isTerminal : Status → Bool
  | .completed => true
  | .error => true
  | .cancelled => true
  | _ => false

/-- Mirror of the `DownloadItem` interface of `App.tsx`.  `progress` is a
rational (JS number), timestamps stay opaque: `completedAt` an ISO string,
`scheduledFor` the parsed epoch-milliseconds value of the stored ISO string
(`none` for an absent, empty or unparsable value, on which
`new Date(...)`-comparison is always false). -/
structure DownloadItem where
  id : String
  url : String
  title : String
  status : Status
  progress : Rat
  speed : String
  eta : String
  size : String
  logs : List String
  isLogsOpen : Bool := false
  downloadPath : Option String := none
  completedAt : Option String := none
  format : Option String := none
  subtitles : Option Bool := none
  phase : Option String := none
  scheduledFor : Option Nat := none
deriving DecidableEq, Repr

/-- Mirror of the `ProgressPayload` interface. -/
structure ProgressPayload where
  id : String
  percentage : Rat
  speed : String
  eta : String
  size : String
  status : String
  phase : Option String := none
deriving DecidableEq, Repr

/-- Constant `MAX_LOG_LINES_PER_DOWNLOAD` from `App.tsx`. -/
def MAX_LOG_LINES_PER_DOWNLOAD : Nat := 300

/-- Constant `PROGRESS_UPDATE_INTERVAL_MS` from `App.tsx`. -/
def PROGRESS_UPDATE_INTERVAL_MS : Nat := 150

/-- Constant `MIN_PROGRESS_DELTA` from `App.tsx` (= 0.25), written via `mkRat` so that concrete
proofs can evaluate it. -/
def MIN_PROGRESS_DELTA : Rat := mkRat 1 4

/-- Model of `Math.abs` on JS numbers, embedded on `Rat`. -/
def ratAbs (x : Rat) : Rat := if x < 0 then -x else x

/-- Subtraction on `Rat`, spelled via `mkRat` so that concrete proofs can
evaluate it (`Rat.sub` is `@[irreducible]`); `ratSub_eq_sub` identifies it
with ordinary subtraction. -/
def ratSub (a b : Rat) : Rat := mkRat (a.num * b.den - b.num * a.den) (a.den * b.den)

theorem ratSub_eq_sub (a b : Rat) : ratSub a b = a - b := (Rat.sub_def' a b).symm

/-- State touched by the progress listener: the per-task throttle timestamps
(`progressUpdateTimesRef.current`, read with default `0`) and the active
downloads list. -/
structure RState where
  times : String → Nat
  downloads : List DownloadItem

/-- Pointwise update of the throttle map:
`progressUpdateTimesRef.current[id] = now`. -/
def tmSet (m : String → Nat) (k : String) (v : Nat) : String → Nat :=
  fun k' => if k' = k then v else m k'

/-- Body of the `setDownloads` mapper inside the `download-progress`
listener: for the matching item, compare the incoming payload against the
stored fields (progress with the `MIN_PROGRESS_DELTA` threshold) and either
keep the item untouched or overwrite the progress fields and force the
status to `downloading`. -/
def applyProgressItem (p : ProgressPayload) (item : DownloadItem) : DownloadItem :=
  if item.id ≠ p.id then item
  else
    let progressChanged := MIN_PROGRESS_DELTA ≤ ratAbs (ratSub item.progress p.percentage)
    let speedChanged := item.speed ≠ p.speed
    let etaChanged := item.eta ≠ p.eta
    let sizeChanged := item.size ≠ p.size
    let phaseChanged := item.phase ≠ p.phase
    let statusChanged := item.status ≠ Status.downloading
    if ¬progressChanged ∧ ¬speedChanged ∧ ¬etaChanged ∧ ¬sizeChanged ∧
        ¬phaseChanged ∧ ¬statusChanged then
      item
    else
      { item with
        progress := p.percentage
        speed := p.speed
        eta := p.eta
        size := p.size
        status := Status.downloading
        phase := p.phase }

/-- The `download-progress` listener: drop the event unless it is
final-stage (`percentage >= 99`) or at least `PROGRESS_UPDATE_INTERVAL_MS`
elapsed since the stored per-task timestamp; when it passes that gate,
advance the timestamp (before the meaningful-change comparison) and map the
per-item update over the downloads list. -/
def stepProgress (st : RState) (now : Nat) (p : ProgressPayload) : RState :=
  let lastUpdate := st.times p.id
  let isFinalStage := (99 : Rat) ≤ p.percentage
  if ¬isFinalStage ∧ now - lastUpdate < PROGRESS_UPDATE_INTERVAL_MS then st
  else
    { times := tmSet st.times p.id now
      downloads := st.downloads.map (applyProgressItem p) }

/-- The throttle gate of `stepProgress`: the event is *not* dropped. -/
def gatePasses (st : RState) (now : Nat) (p : ProgressPayload) : Prop :=
  (99 : Rat) ≤ p.percentage ∨ PROGRESS_UPDATE_INTERVAL_MS ≤ now - st.times p.id

instance (st : RState) (now : Nat) (p : ProgressPayload) :
    Decidable (gatePasses st now p) := by
  unfold gatePasses PROGRESS_UPDATE_INTERVAL_MS
  infer_instance

/-- Run a sequence of timestamped progress events through `stepProgress`. -/
def runProgress (st : RState) : List (Nat × ProgressPayload) → RState
  | [] => st
  | e :: es => runProgress (stepProgress st e.1 e.2) es

/-! ## Log events -/

/-- The whitespace characters stripped by JavaScript `String.prototype.trim`
(restricted to the ASCII whitespace that can occur in downloader output). -/
def jsIsWs (c : Char) : Bool := c = ' ' ∨ c = '\t' ∨ c = '\n' ∨ c = '\r'

/-- Model of JS `String.prototype.trim`: drop leading and trailing
whitespace. -/
def jsTrim (s : String) : String :=
  ⟨((s.data.dropWhile jsIsWs).reverse.dropWhile jsIsWs).reverse⟩

/-- Body of the `setDownloads` mapper inside the `download-log` listener for
the matching item (the trimmed message is already known to be nonempty):
drop the line when it equals the last stored line, else append it and
enforce the `MAX_LOG_LINES_PER_DOWNLOAD` cap by keeping the last `cap`
lines (`nextLogs.slice(-MAX_LOG_LINES_PER_DOWNLOAD)`). -/
def applyLogItem (pid message : String) (item : DownloadItem) : DownloadItem :=
  if item.id ≠ pid then item
  else
    let currentLogs := item.logs
    if currentLogs.getLast? = some message then item
    else
      let nextLogs := currentLogs ++ [message]
      let logs :=
        if MAX_LOG_LINES_PER_DOWNLOAD < nextLogs.length then
          nextLogs.drop (nextLogs.length - MAX_LOG_LINES_PER_DOWNLOAD)
        else nextLogs
      { item with logs := logs }

/-- The `download-log` listener: trim the message, drop it when empty,
otherwise map the per-item update over the downloads list. -/
def stepLog (downloads : List DownloadItem) (pid rawMessage : String) :
    List DownloadItem :=
  let message := jsTrim rawMessage
  if message = "" then downloads
  else downloads.map (applyLogItem pid message)

/-- Run a sequence of `(id, message)` log events through `stepLog`. -/
def runLog (downloads : List DownloadItem) : List (String × String) → List DownloadItem
  | [] => downloads
  | e :: es => runLog (stepLog downloads e.1 e.2) es

/-! ## Title events -/

/-- The `download-title` listener: overwrite the matching item's title,
unthrottled. -/
def stepTitle (downloads : List DownloadItem) (pid newTitle : String) :
    List DownloadItem :=
  downloads.map fun item =>
    if item.id = pid then { item with title := newTitle } else item

/-! ## Status events -/

/-- Body of the `setDownloads` mapper inside the `download-status` listener:
overwrite the matching item's status, force progress to 100 on `completed`,
and open the log panel on `error`. -/
def applyStatusItem (pid : String) (ts : TermStatus) (item : DownloadItem) :
    DownloadItem :=
  if item.id = pid then
    { item with
      status := ts.toStatus
      progress := if ts = TermStatus.completed then 100 else item.progress
      isLogsOpen := if ts = TermStatus.error then true else item.isLogsOpen }
  else item

/-- The `download-status` listener: discard the per-task throttle timestamp
(`delete progressUpdateTimesRef.current[id]`, i.e. reset to the 0 default)
and map the per-item update over the downloads list. -/
def stepStatus (st : RState) (pid : String) (ts : TermStatus) : RState :=
  { times := tmSet st.times pid 0
    downloads := st.downloads.map (applyStatusItem pid ts) }

/-! ## History migration -/

/-- JS `x || dflt` on an optional string: an absent or empty string falls
back to the default. -/
def jsOrElse (o : Option String) (dflt : String) : String :=
  match o with
  | none => dflt
  | some s => if s = "" then dflt else s

/-- The stamping applied to a terminal task as it moves to history:
`completedAt: d.completedAt || new Date().toISOString(),
downloadPath: savePath`. -/
def stampItem (now savePath : String) (d : DownloadItem) : DownloadItem :=
  { d with completedAt := some (jsOrElse d.completedAt now), downloadPath := some savePath }

/-- The history-migration `useEffect`: collect the terminal tasks, and if
there are any, stamp them, prepend those whose id is not already in the
history (newest first), truncate the history to 100 entries
(`.slice(0, 100)`), and remove all terminal tasks from the active list. -/
def migrateHistory (now savePath : String)
    (downloads history : List DownloadItem) :
    List DownloadItem × List DownloadItem :=
  let completed := downloads.filter fun d => isTerminal d.status
  if completed.isEmpty then (downloads, history)
  else
    let updatedCompleted := completed.map (stampItem now savePath)
    let existingIds := history.map (·.id)
    let newItems := updatedCompleted.filter fun d => ! existingIds.contains d.id
    (downloads.filter (fun d => ! isTerminal d.status),
      (newItems ++ history).take 100)

/-- A status event followed by the history migration it triggers, acting on
the pair (active list, history). -/
def statusThenMigrate (pid : String) (ts : TermStatus) (now savePath : String)
    (downloads history : List DownloadItem) :
    List DownloadItem × List DownloadItem :=
  migrateHistory now savePath (downloads.map (applyStatusItem pid ts)) history

/-! ## Cancellation -/

/-- Mirror of `cancelDownload`: it invokes the backend cancel and, only when that call
fails, filter the task out of the active list ("Still remove from UI even
if backend fails"); on success the handler changes nothing, the `cancelled`
status arrives later as a `download-status` event. `cancelSucceeded` is the
outcome of the Execution Interface call. -/
def cancelDownload (cancelSucceeded : Bool) (downloadId : String)
    (downloads : List DownloadItem) : List DownloadItem :=
  if cancelSucceeded then downloads
  else downloads.filter fun d => d.id != downloadId

/-! ## Scheduler -/

/-- One `invoke("start_download", ...)` call issued by the scheduler. -/
structure DispatchCall where
  id : String
  url : String
  downloadDir : String
  formatString : String
  subtitles : Bool
  useAria2c : Bool
deriving DecidableEq, Repr

/-- The due-check of the scheduler loop: `item.status === 'scheduled' && item.scheduledFor &&
now >= new Date(item.scheduledFor)`: a scheduled task is due when it
carries a (parsable, nonempty) scheduled time that is not in the future.
An absent, empty or unparsable `scheduledFor` is `none` and never due. -/
def isDue (now : Nat) (item : DownloadItem) : Bool :=
  item.status = Status.scheduled &&
    match item.scheduledFor with
    | some t => t ≤ now
    | none => false

/-- The `start_download` invocation issued for a due task:
`formatString: item.format || defaultFormat` (JS `||`, so an empty stored
format also falls back) and `subtitles: item.subtitles ?? withSubtitles`. -/
def dispatchFor (savePath defaultFormat : String) (withSubtitles useAria2c : Bool)
    (item : DownloadItem) : DispatchCall :=
  { id := item.id
    url := item.url
    downloadDir := savePath
    formatString := jsOrElse item.format defaultFormat
    subtitles := item.subtitles.getD withSubtitles
    useAria2c := useAria2c }

/-- One tick of the 10-second scheduler interval: every due scheduled task
is flipped to `pending` in place, and a `start_download` call is issued for
each, in the order the tasks appear in the active list (the `forEach`
iteration order). Returns the updated list and the issued calls in order. -/
def schedulerTick (now : Nat) (savePath defaultFormat : String)
    (withSubtitles useAria2c : Bool) (prev : List DownloadItem) :
    List DownloadItem × List DispatchCall :=
  (prev.map fun item =>
      if isDue now item then { item with status := Status.pending } else item,
    (prev.filter (isDue now)).map
      (dispatchFor savePath defaultFormat withSubtitles useAria2c))

/-- Mirror of `scheduleDownload` restricted to one URL: the new `scheduled` task that
is prepended to the active list (`setDownloads(prev => [newDownload,
...prev])`). -/
def newScheduledItem (id scheduleUrl : String) (format : String)
    (subtitles : Bool) (scheduledFor : Option Nat) : DownloadItem :=
  { id := id
    url := scheduleUrl
    title := scheduleUrl
    status := Status.scheduled
    progress := 0
    speed := "0 KB/s"
    eta := "N/A"
    size := "Unknown"
    logs := []
    isLogsOpen := false
    format := some format
    subtitles := some subtitles
    scheduledFor := scheduledFor }

/-- The `for (const scheduleUrl of urlsToSchedule)` loop of
`scheduleDownload`: each `(id, url)` pair in order creates a task and
prepends it, so the resulting list holds the batch in reverse creation
order (`title` is modelled as the URL itself; the source derives it from
the URL's last path segment, which none of the claims inspect). -/
def scheduleMany (pairs : List (String × String)) (format : String)
    (subtitles : Bool) (scheduledFor : Option Nat)
    (prev : List DownloadItem) : List DownloadItem :=
  match pairs with
  | [] => prev
  | (id, u) :: rest =>
      scheduleMany rest format subtitles scheduledFor
        (newScheduledItem id u format subtitles scheduledFor :: prev)

/-! ## Playlist URL classification -/

/-- The components of a parsed URL that `isPlaylistUrl` reads. -/
structure UrlParts where
  pathname : List Char
  query : List Char
deriving DecidableEq, Repr

/-- Split a character list at the first occurrence of `sep`; `none` when
`sep` does not occur. -/
def splitFirst (sep : Char) : List Char → Option (List Char × List Char)
  | [] => none
  | c :: cs =>
      if c = sep then some ([], cs)
      else
        match splitFirst sep cs with
        | some (l, r) => some (c :: l, r)
        | none => none

/-- Model of the WHATWG `new URL(...)` constructor restricted to what
`isPlaylistUrl` reads (`pathname` and the raw query string), for absolute
URLs of the shape `scheme://host[/path][?query][#fragment]`: no colon or no
`//` after it means the constructor throws (`none`); the fragment is
stripped, the query is everything after the first `?`, and the pathname is
`/` followed by everything after the first `/` of the authority part (just
`/` when there is none). -/
def parseUrl (s : String) : Option UrlParts :=
  match splitFirst ':' s.data with
  | none => none
  | some (scheme, rest) =>
      if scheme = [] ∨ rest.take 2 ≠ ['/', '/'] then none
      else
        let afterScheme := rest.drop 2
        let beforeFrag := afterScheme.takeWhile (· ≠ '#')
        let hostAndPath := beforeFrag.takeWhile (· ≠ '?')
        let query := (beforeFrag.dropWhile (· ≠ '?')).drop 1
        let pathname :=
          match splitFirst '/' hostAndPath with
          | none => ['/']
          | some (_, p) => '/' :: p
        some { pathname := pathname, query := query }

/-- Split a character list on every occurrence of `sep`. -/
def splitAllChar (sep : Char) : List Char → List (List Char)
  | [] => [[]]
  | c :: cs =>
      if c = sep then [] :: splitAllChar sep cs
      else
        match splitAllChar sep cs with
        | [] => [[c]]
        | l :: ls => (c :: l) :: ls

/-- Model of `URLSearchParams.has(name)` on a raw query string: split on
`&` and compare the part of each piece before the first `=` against
`name`. -/
def searchParamsHas (query : List Char) (name : List Char) : Bool :=
  ((splitAllChar '&' query).map (fun piece => piece.takeWhile (· ≠ '='))).contains name

/-- Mirror of `isPlaylistUrl` from `App.tsx`: parse the URL (`false` when the
constructor throws), and classify as a playlist exactly when the pathname
is `/playlist` and the query has a `list` parameter; a watch-style URL that
merely carries `&list=` hits the final `return false`. -/
def isPlaylistUrl (urlString : String) : Bool :=
  match parseUrl urlString with
  | some urlObj =>
      if urlObj.pathname = "/playlist".data ∧ searchParamsHas urlObj.query "list".data then
        true
      else false
  | none => false

/-! ## General helper lemmas -/

theorem mapIdOn {α : Type} {l : List α} {f : α → α} (h : ∀ x ∈ l, f x = x) :
    l.map f = l := by
  induction l with
  | nil => rfl
  | cons a t ih =>
      have ha := h a (List.mem_cons_self a t)
      have ht : ∀ x ∈ t, f x = x := fun x hx => h x (List.mem_cons_of_mem a hx)
      simp [List.map_cons, ha, ih ht]

theorem tmSet_self (m : String → Nat) (k : String) (v : Nat) : tmSet m k v k = v := by
  simp [tmSet]

/-! ## Claim C2: the progress throttle -/

theorem stepProgress_drop {st : RState} {now : Nat} {p : ProgressPayload}
    (h : ¬ gatePasses st now p) : stepProgress st now p = st := by
  have hf : ¬ (99 : Rat) ≤ p.percentage := fun hc => h (Or.inl hc)
  have ht : now - st.times p.id < PROGRESS_UPDATE_INTERVAL_MS := by
    by_contra hc
    exact h (Or.inr (Nat.le_of_not_lt hc))
  simp only [stepProgress]
  rw [if_pos ⟨hf, ht⟩]

theorem stepProgress_pass {st : RState} {now : Nat} {p : ProgressPayload}
    (h : gatePasses st now p) :
    stepProgress st now p =
      ⟨tmSet st.times p.id now, st.downloads.map (applyProgressItem p)⟩ := by
  have hc : ¬ (¬ (99 : Rat) ≤ p.percentage ∧
      now - st.times p.id < PROGRESS_UPDATE_INTERVAL_MS) := by
    rcases h with h | h
    · exact fun hc => hc.1 h
    · exact fun hc => Nat.not_le_of_lt hc.2 h
  simp only [stepProgress]
  rw [if_neg hc]

theorem stepProgress_times_ge {v : Nat} (st : RState) (now : Nat)
    (p : ProgressPayload) (id : String) (hst : v ≤ st.times id) (hnow : v ≤ now) :
    v ≤ (stepProgress st now p).times id := by
  by_cases h : gatePasses st now p
  · rw [stepProgress_pass h]
    simp only [tmSet]
    split
    · exact hnow
    · exact hst

  · rw [stepProgress_drop h]
    exact hst

theorem runProgress_times_ge {v : Nat} (es : List (Nat × ProgressPayload))
    (st : RState) (id : String) (hst : v ≤ st.times id)
    (hes : ∀ e ∈ es, v ≤ e.1) :
    v ≤ (runProgress st es).times id := by
  induction es generalizing st with
  | nil => exact hst
  | cons e tl ih =>
      exact ih _
        (stepProgress_times_ge st e.1 e.2 id hst (hes e (List.mem_cons_self e tl)))
        (fun x hx => hes x (List.mem_cons_of_mem e hx))

theorem runProgress_append (st : RState) (l1 l2 : List (Nat × ProgressPayload)) :
    runProgress st (l1 ++ l2) = runProgress (runProgress st l1) l2 := by
  induction l1 generalizing st with
  | nil => rfl
  | cons e tl ih => simp [runProgress, ih]

/-- Claim C2. A progress event is dropped — neither the throttle timestamp nor
the downloads list is touched — unless the time elapsed since the stored
per-task timestamp is at least `PROGRESS_UPDATE_INTERVAL_MS` (150 ms) or the
reported percentage is at least 99; a percentage ≥ 99 always passes the
gate; and along any sequence of progress events, two gate-passing events for
the same task that are both below 99 % are at least 150 ms apart (so at most
one update is applied per throttle interval, final-stage events excepted). -/
theorem progress_throttle :
    (∀ (st : RState) (now : Nat) (p : ProgressPayload),
      ¬ gatePasses st now p → stepProgress st now p = st) ∧
    (∀ (st : RState) (now : Nat) (p : ProgressPayload),
      (99 : Rat) ≤ p.percentage → gatePasses st now p) ∧
    (∀ (st0 : RState) (pre mid : List (Nat × ProgressPayload)) (ti tj : Nat)
      (pi pj : ProgressPayload),
      pj.id = pi.id → pi.percentage < 99 → pj.percentage < 99 →
      (∀ e ∈ mid, ti ≤ e.1) →
      gatePasses (runProgress st0 pre) ti pi →
      gatePasses (runProgress st0 (pre ++ (ti, pi) :: mid)) tj pj →
      ti + PROGRESS_UPDATE_INTERVAL_MS ≤ tj) := by
  refine ⟨fun st now p h => stepProgress_drop h, fun st now p h => Or.inl h, ?_⟩
  intro st0 pre mid ti tj pi pj hid h1 h2 hmid hg1 hg2
  have hrun : runProgress st0 (pre ++ (ti, pi) :: mid) =
      runProgress (stepProgress (runProgress st0 pre) ti pi) mid := by
    rw [runProgress_append]
    rfl
  have hstep : (stepProgress (runProgress st0 pre) ti pi).times pi.id = ti := by
    rw [stepProgress_pass hg1]
    exact tmSet_self _ _ _
  have hge : ti ≤ (runProgress (stepProgress (runProgress st0 pre) ti pi) mid).times pi.id :=
    runProgress_times_ge mid _ pi.id (le_of_eq hstep.symm) hmid
  rcases hg2 with hf | ht
  · exact absurd hf (not_le.mpr h2)
  · rw [hrun, hid] at ht
    unfold PROGRESS_UPDATE_INTERVAL_MS at ht ⊢
    omega

/-! ## Concrete sample values for witnesses and counterexamples -/

/-- A sample task, parameterised by id, status and progress. -/
def sItem (id : String) (st : Status) (prog : Rat) : DownloadItem :=
  { id := id, url := "u", title := "t", status := st, progress := prog,
    speed := "s", eta := "e", size := "z", logs := [] }

/-- A sample progress payload whose textual fields match `sItem`. -/
def sPayload (id : String) (pct : Rat) : ProgressPayload :=
  { id := id, percentage := pct, speed := "s", eta := "e", size := "z",
    status := "downloading" }

theorem progress_throttle_witness :
    gatePasses ⟨fun _ => 0, [sItem "a" Status.pending 0]⟩ 1000 (sPayload "a" 10) ∧
    1000 + PROGRESS_UPDATE_INTERVAL_MS ≤ 1200 :=
  ⟨by decide,
    progress_throttle.2.2 ⟨fun _ => 0, [sItem "a" Status.pending 0]⟩ [] []
      1000 1200 (sPayload "a" 10) (sPayload "a" 20) rfl (by decide) (by decide)
      (by simp) (by decide) (by decide)⟩

/-! ## Claim C1: events against terminal tasks -/

/-- Claim C1 counterexample. A progress event applied to a task that is still
in the active list with terminal status `completed` does *not* leave it
unchanged: the meaningful-change comparison sees `status !== 'downloading'`
and overwrites, re-entering the non-terminal `downloading` state. -/
theorem terminal_progress_reentry_cex :
    ((stepProgress ⟨fun _ => 0, [sItem "a" Status.completed 100]⟩ 1000
        (sPayload "a" 50)).downloads.map (fun d => d.status) = [Status.downloading]) ∧
    isTerminal Status.completed = true ∧ Status.downloading ≠ Status.completed := by
  decide

/-- Claim C1 (amended). The event handlers themselves do not guard on terminal
status; terminal tasks are protected only after the history migration has
removed them from the active list: a progress or status event whose id
matches no task in the list leaves the list unchanged, and the migration
leaves no terminal task in the active list. -/
theorem terminal_events_amended :
    (∀ (st : RState) (now : Nat) (p : ProgressPayload),
      (∀ d ∈ st.downloads, d.id ≠ p.id) →
      (stepProgress st now p).downloads = st.downloads) ∧
    (∀ (dl : List DownloadItem) (pid : String) (ts : TermStatus),
      (∀ d ∈ dl, d.id ≠ pid) → dl.map (applyStatusItem pid ts) = dl) ∧
    (∀ (now sp : String) (dl h : List DownloadItem),
      ∀ d ∈ (migrateHistory now sp dl h).1, isTerminal d.status = false) := by
  refine ⟨?_, ?_, ?_⟩
  · intro st now p h
    by_cases hg : gatePasses st now p
    · rw [stepProgress_pass hg]
      exact mapIdOn fun d hd => by
        unfold applyProgressItem
        rw [if_pos (h d hd)]
    · rw [stepProgress_drop hg]
  · intro dl pid ts h
    exact mapIdOn fun d hd => by
      unfold applyStatusItem
      rw [if_neg (h d hd)]
  · intro now sp dl h d hd
    simp only [migrateHistory] at hd
    by_cases hc : (dl.filter fun d => isTerminal d.status).isEmpty = true
    · rw [if_pos hc] at hd
      rw [List.isEmpty_iff] at hc
      cases hb : isTerminal d.status with
      | false => rfl
      | true =>
          exfalso
          have hmem : d ∈ dl.filter fun d => isTerminal d.status :=
            List.mem_filter.mpr ⟨hd, hb⟩
          rw [hc] at hmem
          exact absurd hmem (List.not_mem_nil d)
    · rw [if_neg hc] at hd
      have := (List.mem_filter.mp hd).2
      simpa using this

theorem terminal_events_amended_witness :
    (∀ d ∈ ([sItem "b" Status.downloading 0] : List DownloadItem),
      d.id ≠ (sPayload "a" 50).id) ∧
    (stepProgress ⟨fun _ => 0, [sItem "b" Status.downloading 0]⟩ 1000
        (sPayload "a" 50)).downloads = [sItem "b" Status.downloading 0] :=
  ⟨by decide, terminal_events_amended.1 _ 1000 _ (by decide)⟩

/-! ## Claim C3: monotonicity of stored progress -/

/-- Claim C3 counterexample. A progress event reporting a lower percentage is
applied (the delta 40 exceeds `MIN_PROGRESS_DELTA`) and lowers the stored
progress from 50 to 10: applied updates are not non-decreasing. -/
theorem progress_decrease_cex :
    ((stepProgress ⟨fun _ => 0, [sItem "a" Status.downloading 50]⟩ 1000
        (sPayload "a" 10)).downloads.map (fun d => d.progress) = [10]) ∧
    (10 : Rat) < 50 := by
  decide

/-- Claim C3 (amended). An applied progress update simply overwrites the
stored progress with the event's reported percentage (or leaves the item
entirely unchanged); no non-decrease check exists, so a lower reported
percentage lowers the stored value. -/
theorem progress_overwrite_amended :
    ∀ (p : ProgressPayload) (item : DownloadItem), item.id = p.id →
      applyProgressItem p item = item ∨
        (applyProgressItem p item).progress = p.percentage := by
  intro p item h
  simp only [applyProgressItem]
  rw [if_neg (not_not_intro h)]
  split
  · exact Or.inl rfl
  · exact Or.inr rfl

theorem progress_overwrite_amended_witness :
    (sItem "a" Status.downloading 50).id = (sPayload "a" 10).id ∧
    (applyProgressItem (sPayload "a" 10) (sItem "a" Status.downloading 50) =
        sItem "a" Status.downloading 50 ∨
      (applyProgressItem (sPayload "a" 10) (sItem "a" Status.downloading 50)).progress =
        (sPayload "a" 10).percentage) :=
  ⟨rfl, progress_overwrite_amended _ _ rfl⟩

/-! ## Claim C4: cancellation -/

/-- Claim C4 counterexample. When the Execution Interface's cancel call fails,
the `downloading` task is filtered out of the active list entirely — it
vanishes instead of acquiring status `cancelled`, so "after cancel the
task's status is cancelled even when the call fails" is false. -/
theorem cancel_failure_cex :
    cancelDownload false "a" [sItem "a" Status.downloading 50] = [] ∧
    (sItem "a" Status.downloading 50).status = Status.downloading := by
  decide

/-- Claim C4 (amended). Cancelling requests cancellation via the Execution
Interface; when that call fails the task is removed from the active list
(with no task record left to carry a `cancelled` status), other tasks being
kept unchanged, and when it succeeds the handler changes nothing — the
`cancelled` status can only arrive later as a backend status event. -/
theorem cancel_amended :
    (∀ (dl : List DownloadItem) (id : String), cancelDownload true id dl = dl) ∧
    (∀ (dl : List DownloadItem) (id : String) (d : DownloadItem),
      d ∈ cancelDownload false id dl → d ∈ dl ∧ d.id ≠ id) ∧
    (∀ (dl : List DownloadItem) (id : String) (d : DownloadItem),
      d ∈ dl → d.id ≠ id → d ∈ cancelDownload false id dl) := by
  refine ⟨fun dl id => rfl, ?_, ?_⟩
  · intro dl id d hd
    unfold cancelDownload at hd
    rw [if_neg (by decide : ¬ (false = true))] at hd
    have h := List.mem_filter.mp hd
    exact ⟨h.1, by simpa using h.2⟩
  · intro dl id d hd hne
    unfold cancelDownload
    rw [if_neg (by decide : ¬ (false = true))]
    exact List.mem_filter.mpr ⟨hd, by simpa using hne⟩

theorem cancel_amended_witness :
    (sItem "b" Status.downloading 0) ∈ ([sItem "b" Status.downloading 0] : List DownloadItem) ∧
    (sItem "b" Status.downloading 0).id ≠ "a" ∧
    (sItem "b" Status.downloading 0) ∈
      cancelDownload false "a" [sItem "b" Status.downloading 0] :=
  ⟨by decide, by decide, cancel_amended.2.2 _ "a" _ (by decide) (by decide)⟩

/-! ## Claim C6: the log ring buffer -/

theorem applyLogItem_last {item : DownloadItem} {pid m : String}
    (h : item.logs.getLast? = some m) : applyLogItem pid m item = item := by
  simp only [applyLogItem]
  by_cases hid : item.id ≠ pid
  · rw [if_pos hid]
  · rw [if_neg hid, if_pos h]

theorem applyLogItem_append {item : DownloadItem} {pid m : String}
    (hid : item.id = pid) (h : ¬ item.logs.getLast? = some m) :
    (applyLogItem pid m item).logs =
      (item.logs ++ [m]).drop (item.logs.length + 1 - MAX_LOG_LINES_PER_DOWNLOAD) := by
  simp only [applyLogItem]
  rw [if_neg (not_not_intro hid), if_neg h]
  have hlen : (item.logs ++ [m]).length = item.logs.length + 1 := by simp
  by_cases hc : MAX_LOG_LINES_PER_DOWNLOAD < (item.logs ++ [m]).length
  · rw [if_pos hc, hlen]
  · rw [if_neg hc]
    rw [hlen] at hc
    have h0 : item.logs.length + 1 - MAX_LOG_LINES_PER_DOWNLOAD = 0 := by omega
    rw [h0, List.drop_zero]

theorem applyLogItem_len {item : DownloadItem} {pid m : String}
    (h : item.logs.length ≤ MAX_LOG_LINES_PER_DOWNLOAD) :
    (applyLogItem pid m item).logs.length ≤ MAX_LOG_LINES_PER_DOWNLOAD := by
  simp only [applyLogItem]
  by_cases hid : item.id ≠ pid
  · rw [if_pos hid]; exact h
  · rw [if_neg hid]
    by_cases hl : item.logs.getLast? = some m
    · rw [if_pos hl]; exact h
    · rw [if_neg hl]
      by_cases hc : MAX_LOG_LINES_PER_DOWNLOAD < (item.logs ++ [m]).length
      · rw [if_pos hc]
        simp only [List.length_drop, List.length_append, List.length_cons,
          List.length_nil]
        omega
      · rw [if_neg hc]
        simp only [List.length_append, List.length_cons, List.length_nil] at hc ⊢
        omega

theorem runLog_cap (events : List (String × String)) (dl : List DownloadItem)
    (h : ∀ item ∈ dl, item.logs.length ≤ MAX_LOG_LINES_PER_DOWNLOAD) :
    ∀ item ∈ runLog dl events, item.logs.length ≤ MAX_LOG_LINES_PER_DOWNLOAD := by
  induction events generalizing dl with
  | nil => exact h
  | cons e tl ih =>
      apply ih
      intro item hitem
      simp only [stepLog] at hitem
      by_cases hc : jsTrim e.2 = ""
      · rw [if_pos hc] at hitem
        exact h item hitem
      · rw [if_neg hc] at hitem
        obtain ⟨x, hx, rfl⟩ := List.mem_map.mp hitem
        exact applyLogItem_len (h x hx)

/-- Claim C6 counterexample. A log event whose message trims to the empty
string is dropped outright even though it is not identical to the last
stored line, so "identical to the preceding stored line is dropped,
otherwise appended" is false as stated. -/
theorem log_blank_cex :
    stepLog [{ sItem "a" Status.downloading 50 with logs := ["foo"] }] "a" "   " =
      [{ sItem "a" Status.downloading 50 with logs := ["foo"] }] ∧
    jsTrim "   " ≠ "foo" ∧ "   " ≠ "foo" := by
  decide

/-- Claim C6 (amended). A log event whose message trims to the empty string
is dropped; a log event whose (trimmed) message equals the immediately
preceding stored line is dropped; otherwise, for the matching task, the
trimmed line is appended and the buffer is trimmed from the head to the cap
of `MAX_LOG_LINES_PER_DOWNLOAD` (300) lines — the new buffer is exactly the
most recent lines of `logs ++ [line]` in arrival order — and along any
sequence of log events a buffer within the cap never exceeds it. -/
theorem log_buffer_amended :
    (∀ (dl : List DownloadItem) (pid raw : String),
      jsTrim raw = "" → stepLog dl pid raw = dl) ∧
    (∀ (dl : List DownloadItem) (pid raw : String),
      jsTrim raw ≠ "" → stepLog dl pid raw = dl.map (applyLogItem pid (jsTrim raw))) ∧
    (∀ (pid m : String) (item : DownloadItem),
      item.logs.getLast? = some m → applyLogItem pid m item = item) ∧
    (∀ (pid m : String) (item : DownloadItem), item.id = pid →
      ¬ item.logs.getLast? = some m →
      (applyLogItem pid m item).logs =
        (item.logs ++ [m]).drop (item.logs.length + 1 - MAX_LOG_LINES_PER_DOWNLOAD)) ∧
    (∀ (events : List (String × String)) (dl : List DownloadItem),
      (∀ item ∈ dl, item.logs.length ≤ MAX_LOG_LINES_PER_DOWNLOAD) →
      ∀ item ∈ runLog dl events, item.logs.length ≤ MAX_LOG_LINES_PER_DOWNLOAD) := by
  refine ⟨?_, ?_, ?_, ?_, runLog_cap⟩
  · intro dl pid raw h
    simp [stepLog, h]
  · intro dl pid raw h
    simp [stepLog, h]
  · intro pid m item h
    exact applyLogItem_last h
  · intro pid m item hid h
    exact applyLogItem_append hid h

theorem log_buffer_amended_witness :
    ({ sItem "a" Status.downloading 50 with logs := ["foo"] } : DownloadItem).id = "a" ∧
    ¬ (["foo"] : List String).getLast? = some "bar" ∧
    (applyLogItem "a" "bar"
        { sItem "a" Status.downloading 50 with logs := ["foo"] }).logs =
      (["foo"] ++ ["bar"]).drop (1 + 1 - MAX_LOG_LINES_PER_DOWNLOAD) :=
  ⟨by decide, by decide,
    log_buffer_amended.2.2.2.1 "a" "bar" _ (by decide) (by decide)⟩

/-! ## Claim C8: status events -/

theorem applyStatus_map_id {dl : List DownloadItem} {pid : String} {ts : TermStatus}
    (h : ∀ d ∈ dl, d.id ≠ pid) : dl.map (applyStatusItem pid ts) = dl :=
  mapIdOn fun d hd => by
    unfold applyStatusItem
    rw [if_neg (h d hd)]

/-- Claim C8. A status event for an unknown id leaves the list unchanged; on
the matching task, a `completed` event forces progress to 100, an `error`
event opens the log panel, and in general the new status is the event's
status, the visibility hint is unchanged for any non-`error` status and the
progress is unchanged for any non-`completed` status. -/
theorem status_event :
    (∀ (dl : List DownloadItem) (pid : String) (ts : TermStatus),
      (∀ d ∈ dl, d.id ≠ pid) → dl.map (applyStatusItem pid ts) = dl) ∧
    (∀ (pid : String) (item : DownloadItem), item.id = pid →
      (applyStatusItem pid TermStatus.completed item).status = Status.completed ∧
      (applyStatusItem pid TermStatus.completed item).progress = 100) ∧
    (∀ (pid : String) (item : DownloadItem), item.id = pid →
      (applyStatusItem pid TermStatus.error item).status = Status.error ∧
      (applyStatusItem pid TermStatus.error item).isLogsOpen = true) ∧
    (∀ (pid : String) (ts : TermStatus) (item : DownloadItem), item.id = pid →
      (applyStatusItem pid ts item).status = ts.toStatus ∧
      (ts ≠ TermStatus.error →
        (applyStatusItem pid ts item).isLogsOpen = item.isLogsOpen) ∧
      (ts ≠ TermStatus.completed →
        (applyStatusItem pid ts item).progress = item.progress)) := by
  refine ⟨fun dl pid ts h => applyStatus_map_id h, ?_, ?_, ?_⟩
  · intro pid item h
    constructor <;> simp [applyStatusItem, h, TermStatus.toStatus]
  · intro pid item h
    constructor <;> simp [applyStatusItem, h, TermStatus.toStatus]
  · intro pid ts item h
    refine ⟨by simp [applyStatusItem, h], fun he => ?_, fun hc => ?_⟩
    · simp [applyStatusItem, h, he]
    · simp [applyStatusItem, h, hc]

theorem status_event_witness :
    (sItem "a" Status.downloading 50).id = "a" ∧
    (applyStatusItem "a" TermStatus.completed (sItem "a" Status.downloading 50)).status =
      Status.completed ∧
    (applyStatusItem "a" TermStatus.completed (sItem "a" Status.downloading 50)).progress =
      100 :=
  ⟨rfl, (status_event.2.1 "a" _ rfl).1, (status_event.2.1 "a" _ rfl).2⟩

/-! ## Claim C5: terminal transition and the History Ledger -/

theorem mem_take_append {α : Type} {x : α} {a b : List α} {n : Nat}
    (ha : a.length ≤ n) (hx : x ∈ a) : x ∈ (a ++ b).take n := by
  rw [List.take_append_eq_append_take]
  exact List.mem_append_left _ (by rwa [List.take_of_length_le ha])

theorem isTerminal_toStatus (ts : TermStatus) : isTerminal ts.toStatus = true := by
  cases ts <;> rfl

theorem migrate_fst (now sp : String) (dl h : List DownloadItem) :
    (migrateHistory now sp dl h).1 = dl.filter fun d => ! isTerminal d.status := by
  simp only [migrateHistory]
  by_cases hc : (dl.filter fun d => isTerminal d.status).isEmpty = true
  · rw [if_pos hc]
    rw [List.isEmpty_iff] at hc
    have hall : ∀ d ∈ dl, ¬ isTerminal d.status = true := by
      intro d hd hterm
      have hmem : d ∈ dl.filter fun d => isTerminal d.status :=
        List.mem_filter.mpr ⟨hd, hterm⟩
      rw [hc] at hmem
      exact absurd hmem (List.not_mem_nil d)
    show dl = _
    symm
    rw [List.filter_eq_self]
    intro d hd
    simpa using hall d hd
  · rw [if_neg hc]

theorem migrate_snd_len (now sp : String) (dl h : List DownloadItem)
    (hh : h.length ≤ 100) : (migrateHistory now sp dl h).2.length ≤ 100 := by
  simp only [migrateHistory]
  by_cases hc : (dl.filter fun d => isTerminal d.status).isEmpty = true
  · rw [if_pos hc]
    exact hh
  · rw [if_neg hc]
    exact List.length_take_le _ _

theorem migrate_mem_snd (now sp : String) (dl h : List DownloadItem)
    (d : DownloadItem) (hd : d ∈ dl) (hterm : isTerminal d.status = true)
    (hnew : (h.map (fun x => x.id)).contains d.id = false)
    (hcap : (dl.filter fun d => isTerminal d.status).length ≤ 100) :
    stampItem now sp d ∈ (migrateHistory now sp dl h).2 := by
  have hdc : d ∈ dl.filter fun d => isTerminal d.status :=
    List.mem_filter.mpr ⟨hd, hterm⟩
  have hne : ¬ (dl.filter fun d => isTerminal d.status).isEmpty = true := by
    intro hc
    rw [List.isEmpty_iff] at hc
    rw [hc] at hdc
    exact absurd hdc (List.not_mem_nil d)
  simp only [migrateHistory]
  rw [if_neg hne]
  apply mem_take_append
  · have h1 := List.length_filter_le
      (fun x => ! (h.map (fun y => y.id)).contains x.id)
      ((dl.filter fun d => isTerminal d.status).map (stampItem now sp))
    have h2 := List.length_map (dl.filter fun d => isTerminal d.status) (stampItem now sp)
    omega
  · apply List.mem_filter.mpr
    refine ⟨List.mem_map_of_mem _ hdc, ?_⟩
    have hid : (stampItem now sp d).id = d.id := rfl
    rw [hid, hnew]
    rfl

theorem migrate_snd_src (now sp : String) (dl h : List DownloadItem)
    (d' : DownloadItem) (hd : d' ∈ (migrateHistory now sp dl h).2) :
    d' ∈ h ∨ (h.map (fun x => x.id)).contains d'.id = false := by
  simp only [migrateHistory] at hd
  by_cases hc : (dl.filter fun d => isTerminal d.status).isEmpty = true
  · rw [if_pos hc] at hd
    exact Or.inl hd
  · rw [if_neg hc] at hd
    have hd2 := List.take_subset _ _ hd
    rcases List.mem_append.mp hd2 with hnew | hold
    · right
      have := (List.mem_filter.mp hnew).2
      simpa using this
    · exact Or.inl hold

theorem statusThenMigrate_idem (pid : String) (ts : TermStatus)
    (now sp now2 sp2 : String) (dl h : List DownloadItem) :
    statusThenMigrate pid ts now2 sp2
        (statusThenMigrate pid ts now sp dl h).1
        (statusThenMigrate pid ts now sp dl h).2 =
      statusThenMigrate pid ts now sp dl h := by
  have hfst : (statusThenMigrate pid ts now sp dl h).1 =
      (dl.map (applyStatusItem pid ts)).filter (fun d => ! isTerminal d.status) :=
    migrate_fst now sp _ h
  have hid : ∀ d ∈ (statusThenMigrate pid ts now sp dl h).1, d.id ≠ pid := by
    intro d hd
    rw [hfst] at hd
    have hmem := (List.mem_filter.mp hd).1
    have hfalse := (List.mem_filter.mp hd).2
    obtain ⟨x, hx, rfl⟩ := List.mem_map.mp hmem
    intro hdp
    by_cases hxid : x.id = pid
    · have hT : isTerminal (applyStatusItem pid ts x).status = true := by
        unfold applyStatusItem
        rw [if_pos hxid]
        exact isTerminal_toStatus ts
      simp [hT] at hfalse
    · have hdx : applyStatusItem pid ts x = x := by
        unfold applyStatusItem
        rw [if_neg hxid]
      rw [hdx] at hdp
      exact hxid hdp
  have hterm : ∀ d ∈ (statusThenMigrate pid ts now sp dl h).1,
      ¬ isTerminal d.status = true := by
    intro d hd
    rw [hfst] at hd
    have := (List.mem_filter.mp hd).2
    simpa using this
  have hmap : (statusThenMigrate pid ts now sp dl h).1.map (applyStatusItem pid ts) =
      (statusThenMigrate pid ts now sp dl h).1 := applyStatus_map_id hid
  have hempty : ((statusThenMigrate pid ts now sp dl h).1.filter
      fun d => isTerminal d.status) = [] :=
    List.filter_eq_nil_iff.mpr hterm
  show migrateHistory now2 sp2
      ((statusThenMigrate pid ts now sp dl h).1.map (applyStatusItem pid ts))
      (statusThenMigrate pid ts now sp dl h).2 = _
  rw [hmap]
  simp only [migrateHistory]
  rw [hempty]
  simp

/-- Claim C5. On a terminal transition the migration effect (i) removes
exactly the terminal tasks from the active Registry, (ii) keeps the Ledger
within its cap of 100 (eviction is `take 100` of the newest-first list, so
oldest-by-addition entries go first), (iii) moves each terminal task whose
id is not yet in the Ledger there, stamped — `completedAt` filled when
absent and the resolved save path recorded, (iv) adds nothing whose id
already is in the Ledger (every Ledger entry is an old entry or has a fresh
id), and (v) processing the same terminal status event twice yields the
identical Registry/Ledger state. -/
theorem history_migration :
    (∀ (now sp : String) (dl h : List DownloadItem),
      (migrateHistory now sp dl h).1 = dl.filter fun d => ! isTerminal d.status) ∧
    (∀ (now sp : String) (dl h : List DownloadItem),
      h.length ≤ 100 → (migrateHistory now sp dl h).2.length ≤ 100) ∧
    (∀ (now sp : String) (dl h : List DownloadItem) (d : DownloadItem),
      d ∈ dl → isTerminal d.status = true →
      (h.map (fun x => x.id)).contains d.id = false →
      (dl.filter fun d => isTerminal d.status).length ≤ 100 →
      stampItem now sp d ∈ (migrateHistory now sp dl h).2) ∧
    (∀ (now sp : String) (d : DownloadItem),
      (stampItem now sp d).completedAt = some (jsOrElse d.completedAt now) ∧
      (stampItem now sp d).downloadPath = some sp ∧
      (d.completedAt = none → (stampItem now sp d).completedAt = some now)) ∧
    (∀ (now sp : String) (dl h : List DownloadItem) (d' : DownloadItem),
      d' ∈ (migrateHistory now sp dl h).2 →
      d' ∈ h ∨ (h.map (fun x => x.id)).contains d'.id = false) ∧
    (∀ (pid : String) (ts : TermStatus) (now sp now2 sp2 : String)
      (dl h : List DownloadItem),
      statusThenMigrate pid ts now2 sp2
          (statusThenMigrate pid ts now sp dl h).1
          (statusThenMigrate pid ts now sp dl h).2 =
        statusThenMigrate pid ts now sp dl h) := by
  refine ⟨migrate_fst, migrate_snd_len, migrate_mem_snd, ?_, migrate_snd_src,
    statusThenMigrate_idem⟩
  intro now sp d
  refine ⟨rfl, rfl, fun hc => ?_⟩
  simp [stampItem, jsOrElse, hc]

theorem history_migration_witness :
    ([] : List DownloadItem).length ≤ 100 ∧
    (migrateHistory "now" "dir" [sItem "a" Status.completed 100] []).2.length ≤ 100 :=
  ⟨by decide,
    history_migration.2.1 "now" "dir" [sItem "a" Status.completed 100] [] (by decide)⟩

/-! ## Claim C7: the scheduler tick -/

/-- Claim C7 counterexample. Two tasks scheduled in creation order `a` then
`b` sit in the active list newest-first (`[b, a]`), and the tick dispatches
them in that list order — `b` before `a` — not in creation order. -/
theorem scheduler_order_cex :
    (scheduleMany [("a", "ua"), ("b", "ub")] "fmt" false (some 100) []).map
        (fun d => d.id) = ["b", "a"] ∧
    ((schedulerTick 200 "dir" "def" false true
        (scheduleMany [("a", "ua"), ("b", "ub")] "fmt" false (some 100) [])).2.map
      (fun c => c.id)) = ["b", "a"] ∧
    (["b", "a"] : List String) ≠ ["a", "b"] := by
  decide

/-- Claim C7 (amended). On a tick, every `scheduled` task whose scheduled time
is ≤ now is flipped to `pending` (others are kept as they are) and exactly
one `start_download` call is issued per due task — carrying the task's
stored format (with the default as fallback), its stored subtitle flag
(with the current toggle as fallback) and the current save path as
destination — and when several tasks are due in one tick the calls are
issued in active-list order, which is most-recently-created first, not in
creation order. -/
theorem scheduler_tick_amended :
    (∀ (now : Nat) (sp df : String) (ws ua : Bool) (prev : List DownloadItem),
      ∀ d ∈ prev, isDue now d = true →
        ({ d with status := Status.pending } : DownloadItem) ∈
          (schedulerTick now sp df ws ua prev).1) ∧
    (∀ (now : Nat) (sp df : String) (ws ua : Bool) (prev : List DownloadItem),
      ∀ d ∈ prev, isDue now d = false → d ∈ (schedulerTick now sp df ws ua prev).1) ∧
    (∀ (now : Nat) (sp df : String) (ws ua : Bool) (prev : List DownloadItem),
      (schedulerTick now sp df ws ua prev).2.map (fun c => c.id) =
        (prev.filter (isDue now)).map (fun d => d.id)) ∧
    (∀ (now : Nat) (sp df : String) (ws ua : Bool) (prev : List DownloadItem),
      ∀ d ∈ prev, isDue now d = true →
        dispatchFor sp df ws ua d ∈ (schedulerTick now sp df ws ua prev).2 ∧
        (dispatchFor sp df ws ua d).formatString = jsOrElse d.format df ∧
        (dispatchFor sp df ws ua d).subtitles = d.subtitles.getD ws ∧
        (dispatchFor sp df ws ua d).downloadDir = sp) ∧
    (∀ (now : Nat) (item : DownloadItem),
      isDue now item = true ↔
        (item.status = Status.scheduled ∧
          ∃ t, item.scheduledFor = some t ∧ t ≤ now)) := by
  refine ⟨?_, ?_, ?_, ?_, ?_⟩
  · intro now sp df ws ua prev d hd hdue
    exact List.mem_map.mpr ⟨d, hd, by simp [hdue]⟩
  · intro now sp df ws ua prev d hd hdue
    exact List.mem_map.mpr ⟨d, hd, by simp [hdue]⟩
  · intro now sp df ws ua prev
    simp [schedulerTick, List.map_map]
    exact fun a ha hdue => rfl
  · intro now sp df ws ua prev d hd hdue
    exact ⟨List.mem_map_of_mem _ (List.mem_filter.mpr ⟨hd, hdue⟩), rfl, rfl, rfl⟩
  · intro now item
    unfold isDue
    cases hs : item.scheduledFor with
    | none => simp [hs]
    | some t => simp [hs]

theorem scheduler_tick_amended_witness :
    newScheduledItem "a" "ua" "fmt" false (some 100) ∈
      ([newScheduledItem "a" "ua" "fmt" false (some 100)] : List DownloadItem) ∧
    isDue 200 (newScheduledItem "a" "ua" "fmt" false (some 100)) = true ∧
    ({ newScheduledItem "a" "ua" "fmt" false (some 100) with
        status := Status.pending } : DownloadItem) ∈
      (schedulerTick 200 "dir" "def" false true
        [newScheduledItem "a" "ua" "fmt" false (some 100)]).1 :=
  ⟨by decide, by decide,
    scheduler_tick_amended.1 200 "dir" "def" false true _ _ (by decide) (by decide)⟩

/-! ## Claim C9: playlist URL classification -/

/-- Claim C9. `https://site/playlist?list=ABC` classifies as a playlist while
`https://site/watch?v=1&list=ABC` does not; in general a parsable URL
classifies as a playlist exactly when its pathname is `/playlist` and its
query carries a `list` parameter, and an unparsable URL classifies as not a
playlist. -/
theorem playlist_classification :
    isPlaylistUrl "https://site/playlist?list=ABC" = true ∧
    isPlaylistUrl "https://site/watch?v=1&list=ABC" = false ∧
    (∀ (s : String) (u : UrlParts), parseUrl s = some u →
      (isPlaylistUrl s = true ↔
        (u.pathname = "/playlist".data ∧ searchParamsHas u.query "list".data = true))) ∧
    (∀ s : String, parseUrl s = none → isPlaylistUrl s = false) := by
  refine ⟨by decide, by decide, ?_, ?_⟩
  · intro s u h
    unfold isPlaylistUrl
    rw [h]
    dsimp only
    constructor
    · intro ht
      by_cases hc : u.pathname = "/playlist".data ∧ searchParamsHas u.query "list".data = true
      · exact hc
      · rw [if_neg hc] at ht
        simp at ht
    · intro hc
      rw [if_pos hc]
  · intro s h
    unfold isPlaylistUrl
    rw [h]

theorem playlist_classification_witness :
    parseUrl "notaurl" = none ∧ isPlaylistUrl "notaurl" = false :=
  ⟨by decide, playlist_classification.2.2.2 "notaurl" (by decide)⟩

/-! ## Claim C10: the throttle timestamp advances on rejected no-ops -/

/-- Claim C10. The per-task throttle timestamp is advanced on every event that
passes the gate, even when the meaningful-change comparison then rejects the
event; consequently, in the concrete trace below, an event carrying a real
change at t=1300 is dropped although the last event that actually mutated
the task was at t=1000, more than 150 ms earlier: a no-op event at t=1200
advanced the timestamp without applying anything. -/
theorem throttle_ref_advance :
    (∀ (st : RState) (now : Nat) (p : ProgressPayload),
      gatePasses st now p → (stepProgress st now p).times p.id = now) ∧
    ((runProgress ⟨fun _ => 0, [sItem "a" Status.pending 0]⟩
        [(1000, sPayload "a" 10), (1200, sPayload "a" 10)]).downloads =
      (runProgress ⟨fun _ => 0, [sItem "a" Status.pending 0]⟩
        [(1000, sPayload "a" 10)]).downloads ∧
      (runProgress ⟨fun _ => 0, [sItem "a" Status.pending 0]⟩
        [(1000, sPayload "a" 10)]).times "a" = 1000 ∧
      (runProgress ⟨fun _ => 0, [sItem "a" Status.pending 0]⟩
        [(1000, sPayload "a" 10), (1200, sPayload "a" 10)]).times "a" = 1200 ∧
      (runProgress ⟨fun _ => 0, [sItem "a" Status.pending 0]⟩
        [(1000, sPayload "a" 10), (1200, sPayload "a" 10), (1300, sPayload "a" 50)]).downloads =
        (runProgress ⟨fun _ => 0, [sItem "a" Status.pending 0]⟩
          [(1000, sPayload "a" 10), (1200, sPayload "a" 10)]).downloads ∧
      (runProgress ⟨fun _ => 0, [sItem "a" Status.pending 0]⟩
        [(1000, sPayload "a" 10), (1200, sPayload "a" 10), (1300, sPayload "a" 50)]).times "a" = 1200 ∧
      (runProgress ⟨fun _ => 0, [sItem "a" Status.pending 0]⟩
          [(1000, sPayload "a" 10), (1200, sPayload "a" 10)]).downloads.map
          (applyProgressItem (sPayload "a" 50)) ≠
        (runProgress ⟨fun _ => 0, [sItem "a" Status.pending 0]⟩
          [(1000, sPayload "a" 10), (1200, sPayload "a" 10)]).downloads ∧
      1000 + PROGRESS_UPDATE_INTERVAL_MS < 1300) := by
  constructor
  · intro st now p h
    rw [stepProgress_pass h]
    exact tmSet_self _ _ _
  · decide

theorem throttle_ref_advance_witness :
    gatePasses ⟨fun _ => 0, [sItem "a" Status.pending 0]⟩ 1000 (sPayload "a" 10) ∧
    (stepProgress ⟨fun _ => 0, [sItem "a" Status.pending 0]⟩ 1000
        (sPayload "a" 10)).times (sPayload "a" 10).id = 1000 :=
  ⟨by decide, throttle_ref_advance.1 _ 1000 _ (by decide)⟩

end DlpGui
